import Mathlib

/-!
Verification of the OSU ticket monitor's core logic: the page parser
(`parse_event.py`), the change detector / alert policy of the monitor loop
(`monitor.py`, `main`), and the history-store reader (`read_last_lowest`).

Modelling conventions:
* Python floats are modelled as rationals (`ℚ`); every numeric literal in the
  relevant code (`0.01`, `1e-9`, parsed prices) is exactly representable.
* Raw markup is abstracted to a `Page`: the whitespace-joined full page text,
  the parent texts of the "Lowest Price" / "Median Sale" label matches (in
  document order), and the table rows, each with its text nodes and `td` texts.
  The regular expressions of the source are implemented character by character.
* The history CSV is abstracted to a `Store`: absent, unreadable, or a list of
  per-record `lowest_price` fields (missing/empty, corrupt, or a value).
-/

namespace TixMonitor

/-! ## Character-level helpers (Python `re` semantics) -/

/-- Python `\s` on the character sets the source can see. -/
def isSpaceChar (c : Char) : Bool :=
  c = ' ' || c = '\t' || c = '\n' || c = '\r' || c = '\x0b' || c = '\x0c'

/-- Python `[0-9]`. -/
def isDigitChar (c : Char) : Bool :=
  '0' ≤ c && c ≤ '9'

/-- Python `\w` (ASCII part): letters, digits, underscore. -/
def isWordChar (c : Char) : Bool :=
  ('a' ≤ c && c ≤ 'z') || ('A' ≤ c && c ≤ 'Z') || ('0' ≤ c && c ≤ '9') || c = '_'

/-- Numeric value of a digit string, most significant first. -/
def digitsToNat (ds : List Char) : Nat :=
  ds.foldl (fun a c => 10 * a + (c.toNat - '0'.toNat)) 0

/-- Value of `float(group)` where `group` is `ds` optionally followed by
`.fs`: the integer part plus the fractional digits scaled down. -/
def moneyVal (ds fs : List Char) : ℚ :=
  match fs with
  | [] => (digitsToNat ds : ℚ)
  | _ => (digitsToNat ds : ℚ) + (digitsToNat fs : ℚ) / (10 : ℚ) ^ fs.length

/-- Attempt to match `\$\s*([0-9]+(?:\.[0-9]{1,2})?)` anchored at the head of
the character list, returning the float value of group 1.  The regex has no
effective backtracking: `\s*` then `[0-9]+` then an optional greedy
`\.[0-9]{1,2}` are all maximal-munch. -/
def matchMoneyAt : List Char → Option ℚ
  | '$' :: rest =>
    let afterSpace := rest.dropWhile isSpaceChar
    let ds := afterSpace.takeWhile isDigitChar
    if ds.isEmpty then none
    else
      match afterSpace.drop ds.length with
      | '.' :: r =>
        let fs := (r.takeWhile isDigitChar).take 2
        if fs.isEmpty then some (moneyVal ds []) else some (moneyVal ds fs)
      | _ => some (moneyVal ds [])
  | _ => none

/-- Model of `_MONEY_RE.search`: leftmost position where the money pattern matches. -/
def moneySearch : List Char → Option ℚ
  | [] => none
  | c :: rest =>
    match matchMoneyAt (c :: rest) with
    | some q => some q
    | none => moneySearch rest

/-- Model of `text.replace(",", "")`. -/
def stripCommas (cs : List Char) : List Char :=
  cs.filter (fun c => c ≠ ',')

/-- Model of `_parse_money(text)` from `parse_event.py`: `None` for empty text, else
search the comma-stripped text for the money pattern (the `float` conversion
of a matched group never raises). -/
def parseMoney (cs : List Char) : Option ℚ :=
  if cs.isEmpty then none
  else moneySearch (stripCommas cs)

/-- Accumulator pass of Python `str.split()`: split on whitespace runs,
dropping empty pieces; `acc` holds the current word reversed. -/
def splitWordsAux : List Char → List Char → List (List Char)
  | [], acc => if acc.isEmpty then [] else [acc.reverse]
  | c :: rest, acc =>
    if isSpaceChar c then
      if acc.isEmpty then splitWordsAux rest []
      else acc.reverse :: splitWordsAux rest []
    else splitWordsAux rest (c :: acc)

/-- Python `str.split()` with no argument. -/
def splitWords (cs : List Char) : List (List Char) :=
  splitWordsAux cs []

/-- Model of `" ".join(text.split())`: collapse whitespace runs to single spaces. -/
def normWS (cs : List Char) : List Char :=
  List.intercalate [' '] (splitWords cs)

/-- Search a text node for `\bBuy\b` (case-insensitive): the three letters
b-u-y with no word character immediately before or after.  `prev` is the
character preceding the current position, if any. -/
def hasBuyScan : Option Char → List Char → Bool
  | prev, c1 :: c2 :: c3 :: rest =>
    if (c1 = 'b' || c1 = 'B') && (c2 = 'u' || c2 = 'U') && (c3 = 'y' || c3 = 'Y')
        && (match prev with | none => true | some p => !isWordChar p)
        && (match rest with | [] => true | r :: _ => !isWordChar r) then
      true
    else hasBuyScan (some c1) (c2 :: c3 :: rest)
  | _, _ => false

/-- Whether `\bBuy\b` occurs in the text. -/
def hasBuyWord (cs : List Char) : Bool :=
  hasBuyScan none cs

/-! ## Page model and `parse_prices_summary` -/

/-- One `<tr>`: its text nodes (searched by `tr.find(text=...)`) and the
`get_text` of each of its `<td>` cells, in document order. -/
structure Row where
  textNodes : List String
  tdTexts : List String
deriving DecidableEq, Repr

/-- Abstraction of the parsed markup, as BeautifulSoup exposes it to
`parse_prices_summary`: the parent texts of each text node matching the
"Lowest Price" (resp. "Median Sale") label regex, in document order; the
whole-document text `soup.get_text(" ", strip=True)`; and the
`table tr` rows. -/
structure Page where
  lowestLabelTexts : List String
  medianLabelTexts : List String
  fullText : String
  rows : List Row
deriving DecidableEq, Repr

/-- The label loop of `parse_prices_summary`: normalize each candidate
parent text, `_parse_money` it, and `break` on the first success. -/
def firstLabelMoney : List String → Option ℚ
  | [] => none
  | t :: ts =>
    match parseMoney (normWS t.data) with
    | some q => some q
    | none => firstLabelMoney ts

/-- Whether `tr.find(text=re.compile(r"\bBuy\b", re.I))` is truthy. -/
def rowHasBuy (r : Row) : Bool :=
  r.textNodes.any (fun t => hasBuyWord t.data)

/-- The per-row cell loop: take the price of the first cell whose
`_parse_money` result is truthy (`if price:` — `None` and `0.0` are both
falsy, so a cell parsing to `0.0` is skipped and the scan continues). -/
def rowPrice : List String → Option ℚ
  | [] => none
  | td :: rest =>
    match parseMoney td.data with
    | some q => if q = 0 then rowPrice rest else some q
    | none => rowPrice rest

/-- The row loop: keep rows containing the "Buy" token, collect one price
per kept row (rows whose cells yield no truthy price contribute nothing). -/
def collectPrices (rows : List Row) : List ℚ :=
  (rows.filter rowHasBuy).filterMap (fun r => rowPrice r.tdTexts)

/-- Python `min` on a list (`None` for empty, via the callers' guards). -/
def listMin : List ℚ → Option ℚ
  | [] => none
  | h :: t => some (t.foldl min h)

/-- The summary dictionary returned by `parse_prices_summary`. -/
structure PriceSummary where
  lowest_price : Option ℚ
  median_sale : Option ℚ
  computed_min_price : Option ℚ
  num_listings : Option ℤ
  all_prices : List ℚ
deriving DecidableEq, Repr

/-- Model of `parse_prices_summary(html)` over the page abstraction. -/
def parse_prices_summary (p : Page) : PriceSummary :=
  let labelled := firstLabelMoney p.lowestLabelTexts
  let lowest_price :=
    match labelled with
    | some q => some q
    | none => moneySearch p.fullText.data
  let median_sale := firstLabelMoney p.medianLabelTexts
  let prices := collectPrices p.rows
  { lowest_price := lowest_price
    median_sale := median_sale
    computed_min_price := listMin prices
    num_listings := match prices with | [] => none | _ => some (prices.length : ℤ)
    all_prices := match prices with | [] => [] | _ => prices.insertionSort (· ≤ ·) }

/-! ## Change detector and alert policy (`monitor.py`, body of the loop) -/

/-- The previous cycle's tracked state (`last_state` dictionary); the
monitor holds `Option LastState`, `none` standing for the falsy empty dict
returned by `read_last_state` when no history exists. -/
structure LastState where
  lowest_price : Option ℚ
  num_listings : Option ℤ
  all_prices : List ℚ
deriving DecidableEq, Repr

/-- The alert messages, abstracted from their formatted strings to their
payloads, in the order the fields appear in the text. -/
inductive Msg where
  | targetHit (lowest target : ℚ)
  | newLow (low : ℚ) (old : Option ℚ)
  | posted (count total : ℤ)
  | sold (count total : ℤ)
  | priceUp (old new : ℚ)
  | priceDown (old new : ℚ)
  | market (lowest5 : List ℚ) (medianBottom10 : ℚ)
deriving DecidableEq, Repr

def Msg.isTargetHitB : Msg → Bool
  | .targetHit _ _ => true
  | _ => false

def Msg.isNewLowB : Msg → Bool
  | .newLow _ _ => true
  | _ => false

def Msg.isListingB : Msg → Bool
  | .posted _ _ => true
  | .sold _ _ => true
  | _ => false

def Msg.isPriceChangeB : Msg → Bool
  | .priceUp _ _ => true
  | .priceDown _ _ => true
  | _ => false

def Msg.isMarketB : Msg → Bool
  | .market _ _ => true
  | _ => false

/-- The `1e-9` tolerance of the new-low rule. -/
def newLowEps : ℚ := 1 / 1000000000

/-- The `0.01` threshold of the price-change rule. -/
def priceChangeEps : ℚ := 1 / 100

/-- Model of `min([v for v in [lp, cmp_min] if v is not None], default=None)`. -/
def effectiveLow : Option ℚ → Option ℚ → Option ℚ
  | some a, some b => some (min a b)
  | some a, none => some a
  | none, some b => some b
  | none, none => none

/-- The new-all-time-low rule: messages emitted and the updated
`all_time_low`. -/
def newLowStep (atl : Option ℚ) (lp cmpMin : Option ℚ) : List Msg × Option ℚ :=
  match effectiveLow lp cmpMin with
  | none => ([], atl)
  | some e =>
    match atl with
    | none => ([Msg.newLow e none], some e)
    | some a => if e < a - newLowEps then ([Msg.newLow e (some a)], some e) else ([], atl)

/-- The listing-count branch of movement detection: messages and whether
movement was detected by it. -/
def listingStep (lastNum : Option ℤ) (n : ℤ) : List Msg × Bool :=
  match lastNum with
  | none => ([], false)
  | some m =>
    if n ≠ m then
      (if n - m > 0 then [Msg.posted (n - m) n] else [Msg.sold (m - n) n], true)
    else ([], false)

/-- The price-change branch of movement detection. -/
def priceStep (lastLowest : Option ℚ) (lp : Option ℚ) : List Msg × Bool :=
  match lastLowest, lp with
  | some ll, some l =>
    if |l - ll| > priceChangeEps then
      (if l > ll then [Msg.priceUp ll l] else [Msg.priceDown ll l], true)
    else ([], false)
  | _, _ => ([], false)

/-- The market-snapshot rule: lowest 5 prices and the median of the bottom
10 (element at index `len // 2` of the sorted bottom 10). -/
def marketStep (movementDetected : Bool) (allPrices : List ℚ) : List Msg :=
  if movementDetected && !allPrices.isEmpty then
    let lowest5 := if allPrices.length ≥ 5 then allPrices.take 5 else allPrices
    let bottom10 := if allPrices.length ≥ 10 then allPrices.take 10 else allPrices
    if bottom10.isEmpty then []
    else [Msg.market lowest5 ((bottom10.insertionSort (· ≤ ·)).getD (bottom10.length / 2) 0)]
  else []

/-- Result of one pass of the detection block. -/
structure DetectResult where
  msgs : List Msg
  all_time_low : Option ℚ
  last_state : LastState
deriving DecidableEq, Repr

/-- The price-target rule: `lp is not None and target_price > 0 and
lp <= target_price`. -/
def targetStep (targetPrice : ℚ) (lp : Option ℚ) : List Msg :=
  match lp with
  | some l => if targetPrice > 0 ∧ l ≤ targetPrice then [Msg.targetHit l targetPrice] else []
  | none => []

/-- The `if last_state and num_listings is not None` block: both movement
branches, returning their messages and the `movement_detected` flag. -/
def movementStep (lastState : Option LastState) (numListings : Option ℤ)
    (lp : Option ℚ) : List Msg × Bool :=
  match lastState, numListings with
  | some ls, some n =>
    let a := listingStep ls.num_listings n
    let b := priceStep ls.lowest_price lp
    (a.1 ++ b.1, a.2 || b.2)
  | _, _ => ([], false)

/-- One pass of the alert-decision block of `main`'s loop body (lines
206–276 of `monitor.py`): target hit, new all-time low, movement
(listing-count change then price change, both guarded by a truthy
`last_state` and a non-null current `num_listings`), market snapshot, and
the unconditional `last_state` update. -/
def detect (targetPrice : ℚ) (notifyOnNewLow : Bool) (allTimeLow : Option ℚ)
    (lastState : Option LastState) (s : PriceSummary) : DetectResult :=
  let lp := s.lowest_price
  let cmpMin := s.computed_min_price
  let numListings := s.num_listings
  let allPrices := s.all_prices
  let nl := if notifyOnNewLow then newLowStep allTimeLow lp cmpMin else ([], allTimeLow)
  let move := movementStep lastState numListings lp
  { msgs := targetStep targetPrice lp ++ nl.1 ++ move.1 ++ marketStep move.2 allPrices
    all_time_low := nl.2
    last_state := { lowest_price := lp, num_listings := numListings, all_prices := allPrices } }

/-! ## History store reader (`read_last_lowest`) -/

/-- The `lowest_price` field of one history record as the CSV reader sees
it: falsy (column absent or empty string), a non-empty string `float()`
raises on, or a value. -/
inductive LowField where
  | missing
  | corrupt
  | val (q : ℚ)
deriving DecidableEq, Repr

def LowField.isCorrupt : LowField → Bool
  | .corrupt => true
  | _ => false

def LowField.getVal : LowField → Option ℚ
  | .val q => some q
  | _ => none

/-- The history CSV from the reader's point of view: the file is absent,
opening/parsing it raises, or it yields a list of records with their
`lowest_price` fields. -/
inductive Store where
  | absent
  | unreadable
  | records (rs : List LowField)
deriving DecidableEq, Repr

/-- Model of `read_last_lowest()` from `monitor.py`: `None` when the file does not
exist; otherwise build the list of `float(row["lowest_price"])` over the
records whose field is truthy — any `float()` failure (or read failure)
is caught and yields `None` — and return its `min`, or `None` if empty. -/
def read_last_lowest : Store → Option ℚ
  | .absent => none
  | .unreadable => none
  | .records rs =>
    if rs.any LowField.isCorrupt then none
    else listMin (rs.filterMap LowField.getVal)

/-! ## Concrete fixtures -/

/-- A page with no "Lowest Price" label whose full text contains a
thousands-separated amount. -/
def pageComma : Page :=
  { lowestLabelTexts := [], medianLabelTexts := [], fullText := "$1,234", rows := [] }

/-- A labelled page with three "Buy" rows priced 150, 100, 130. -/
def pageA : Page :=
  { lowestLabelTexts := ["Lowest Price $120"], medianLabelTexts := [], fullText := "x",
    rows := [ { textNodes := ["Buy"], tdTexts := ["$150"] },
              { textNodes := ["Buy"], tdTexts := ["$100"] },
              { textNodes := ["Buy"], tdTexts := ["$130"] } ] }

/-- A page whose single "Buy" row has a `$0` first cell and a `$5`
second cell. -/
def pageZero : Page :=
  { lowestLabelTexts := [], medianLabelTexts := [], fullText := "",
    rows := [ { textNodes := ["Buy"], tdTexts := ["$0", "$5"] } ] }

/-- A page whose rows never contain the "Buy" token. -/
def pageNoBuy : Page :=
  { lowestLabelTexts := ["Lowest Price $12"], medianLabelTexts := [], fullText := "Sold Out",
    rows := [ { textNodes := ["Sold Out", "Buyer info"], tdTexts := ["$10"] },
              { textNodes := [], tdTexts := [] } ] }

/-! ## Helper lemmas: Python `min` as a left fold -/

lemma foldl_min_le_init (t : List ℚ) (a : ℚ) : t.foldl min a ≤ a := by
  induction t generalizing a with
  | nil => simp
  | cons b t ih =>
    calc (b :: t).foldl min a = t.foldl min (min a b) := rfl
    _ ≤ min a b := ih _
    _ ≤ a := min_le_left _ _

lemma foldl_min_le_mem (t : List ℚ) (a : ℚ) : ∀ x ∈ t, t.foldl min a ≤ x := by
  induction t generalizing a with
  | nil => simp
  | cons b t ih =>
    intro x hx
    rcases List.mem_cons.mp hx with rfl | hx
    · calc (x :: t).foldl min a = t.foldl min (min a x) := rfl
      _ ≤ min a x := foldl_min_le_init t _
      _ ≤ x := min_le_right _ _
    · exact ih (min a b) x hx

lemma foldl_min_mem (t : List ℚ) (a : ℚ) : t.foldl min a ∈ a :: t := by
  induction t generalizing a with
  | nil => simp
  | cons b t ih =>
    have h : t.foldl min (min a b) ∈ (min a b) :: t := ih (min a b)
    rcases List.mem_cons.mp h with h1 | h1
    · rcases min_choice a b with h2 | h2
      · rw [show (b :: t).foldl min a = t.foldl min (min a b) from rfl, h1, h2]
        exact List.mem_cons_self _ _
      · rw [show (b :: t).foldl min a = t.foldl min (min a b) from rfl, h1, h2]
        exact List.mem_cons_of_mem _ (List.mem_cons_self _ _)
    · exact List.mem_cons_of_mem _ (List.mem_cons_of_mem _ h1)

lemma listMin_mem {l : List ℚ} {m : ℚ} (h : listMin l = some m) : m ∈ l := by
  cases l with
  | nil => simp [listMin] at h
  | cons a t =>
    simp only [listMin, Option.some.injEq] at h
    exact h ▸ foldl_min_mem t a

lemma listMin_le {l : List ℚ} {m : ℚ} (h : listMin l = some m) : ∀ x ∈ l, m ≤ x := by
  cases l with
  | nil => simp [listMin] at h
  | cons a t =>
    simp only [listMin, Option.some.injEq] at h
    intro x hx
    rcases List.mem_cons.mp hx with rfl | hx
    · exact h ▸ foldl_min_le_init t x
    · exact h ▸ foldl_min_le_mem t a x hx

/-! ## Helper lemmas: the parser -/

lemma parse_all_prices_perm (p : Page) :
    (parse_prices_summary p).all_prices.Perm (collectPrices p.rows) := by
  simp only [parse_prices_summary]
  cases h : collectPrices p.rows with
  | nil => simp
  | cons a t => exact List.perm_insertionSort _ _

lemma moneyVal_nonneg (ds fs : List Char) : 0 ≤ moneyVal ds fs := by
  unfold moneyVal
  cases fs with
  | nil => positivity
  | cons a l => positivity

lemma matchMoneyAt_nonneg {cs : List Char} {q : ℚ} (h : matchMoneyAt cs = some q) :
    0 ≤ q := by
  unfold matchMoneyAt at h
  split at h
  · dsimp only at h
    split at h
    · exact absurd h (by simp)
    · split at h
      · split at h
        · rw [Option.some.injEq] at h
          exact h ▸ moneyVal_nonneg _ _
        · rw [Option.some.injEq] at h
          exact h ▸ moneyVal_nonneg _ _
      · rw [Option.some.injEq] at h
        exact h ▸ moneyVal_nonneg _ _
  · exact absurd h (by simp)

lemma moneySearch_nonneg {cs : List Char} {q : ℚ} (h : moneySearch cs = some q) :
    0 ≤ q := by
  induction cs with
  | nil => simp [moneySearch] at h
  | cons c rest ih =>
    rw [moneySearch] at h
    rcases hm : matchMoneyAt (c :: rest) with _ | q'
    · rw [hm] at h
      exact ih h
    · rw [hm, Option.some.injEq] at h
      exact h ▸ matchMoneyAt_nonneg hm

lemma parseMoney_nonneg {cs : List Char} {q : ℚ} (h : parseMoney cs = some q) :
    0 ≤ q := by
  unfold parseMoney at h
  split at h
  · exact absurd h (by simp)
  · exact moneySearch_nonneg h

lemma rowPrice_pos {tds : List String} {q : ℚ} (h : rowPrice tds = some q) : 0 < q := by
  induction tds with
  | nil => simp [rowPrice] at h
  | cons td rest ih =>
    rw [rowPrice] at h
    rcases hm : parseMoney td.data with _ | q'
    · rw [hm] at h
      exact ih h
    · rw [hm] at h
      dsimp only at h
      by_cases hz : q' = 0
      · rw [if_pos hz] at h
        exact ih h
      · rw [if_neg hz] at h
        rw [Option.some.injEq] at h
        have := parseMoney_nonneg hm
        exact h ▸ lt_of_le_of_ne this (Ne.symm hz)

lemma collectPrices_pos {rows : List Row} {x : ℚ} (hx : x ∈ collectPrices rows) :
    0 < x := by
  unfold collectPrices at hx
  rcases List.mem_filterMap.mp hx with ⟨r, _, hr⟩
  exact rowPrice_pos hr

/-! ## Helper lemmas: the change detector -/

lemma detect_msgs (tp : ℚ) (nl : Bool) (atl : Option ℚ) (lso : Option LastState)
    (s : PriceSummary) :
    (detect tp nl atl lso s).msgs =
      targetStep tp s.lowest_price ++
      (if nl then (newLowStep atl s.lowest_price s.computed_min_price).1 else []) ++
      (movementStep lso s.num_listings s.lowest_price).1 ++
      marketStep (movementStep lso s.num_listings s.lowest_price).2 s.all_prices := by
  cases nl <;> simp [detect]

lemma detect_all_time_low (tp : ℚ) (nl : Bool) (atl : Option ℚ) (lso : Option LastState)
    (s : PriceSummary) :
    (detect tp nl atl lso s).all_time_low =
      if nl then (newLowStep atl s.lowest_price s.computed_min_price).2 else atl := by
  cases nl <;> simp [detect]

lemma targetStep_filter_eq_nil (pr : Msg → Bool) (tp : ℚ) (lp : Option ℚ)
    (h : ∀ l t, pr (Msg.targetHit l t) = false) :
    (targetStep tp lp).filter pr = [] := by
  rcases lp with _ | l
  · rfl
  · dsimp only [targetStep]
    by_cases hc : tp > 0 ∧ l ≤ tp
    · simp [hc, h]
    · simp [hc]

lemma newLowStep_filter_eq_nil (pr : Msg → Bool) (atl lp cm : Option ℚ)
    (h : ∀ e o, pr (Msg.newLow e o) = false) :
    ((newLowStep atl lp cm).1).filter pr = [] := by
  rcases he : effectiveLow lp cm with _ | e
  · simp [newLowStep, he]
  · rcases atl with _ | a
    · simp [newLowStep, he, h]
    · simp only [newLowStep, he]
      split <;> simp [h]

lemma listingStep_filter_eq_nil (pr : Msg → Bool) (ln : Option ℤ) (n : ℤ)
    (h1 : ∀ c t, pr (Msg.posted c t) = false)
    (h2 : ∀ c t, pr (Msg.sold c t) = false) :
    ((listingStep ln n).1).filter pr = [] := by
  rcases ln with _ | m
  · rfl
  · simp only [listingStep]
    split
    · split <;> simp [h1, h2]
    · rfl

lemma priceStep_filter_eq_nil (pr : Msg → Bool) (llp lp : Option ℚ)
    (h1 : ∀ o n, pr (Msg.priceUp o n) = false)
    (h2 : ∀ o n, pr (Msg.priceDown o n) = false) :
    ((priceStep llp lp).1).filter pr = [] := by
  rcases llp with _ | ll
  · rfl
  · rcases lp with _ | l
    · rfl
    · simp only [priceStep]
      split
      · split <;> simp [h1, h2]
      · rfl

lemma marketStep_filter_eq_nil (pr : Msg → Bool) (b : Bool) (l : List ℚ)
    (h : ∀ l5 m, pr (Msg.market l5 m) = false) :
    (marketStep b l).filter pr = [] := by
  unfold marketStep
  split
  · by_cases hb : (if l.length ≥ 10 then List.take 10 l else l).isEmpty
    · simp [hb]
    · simp [hb, h]
  · rfl

lemma movementStep_filter_eq_nil (pr : Msg → Bool) (lso : Option LastState)
    (ln : Option ℤ) (lp : Option ℚ)
    (h1 : ∀ c t, pr (Msg.posted c t) = false)
    (h2 : ∀ c t, pr (Msg.sold c t) = false)
    (h3 : ∀ o n, pr (Msg.priceUp o n) = false)
    (h4 : ∀ o n, pr (Msg.priceDown o n) = false) :
    ((movementStep lso ln lp).1).filter pr = [] := by
  rcases lso with _ | ls
  · rfl
  · rcases ln with _ | n
    · rfl
    · dsimp only [movementStep]
      rw [List.filter_append, listingStep_filter_eq_nil pr _ _ h1 h2,
        priceStep_filter_eq_nil pr _ _ h3 h4]
      rfl

lemma listingStep_filter_self (ln : Option ℤ) (n : ℤ) :
    ((listingStep ln n).1).filter Msg.isListingB = (listingStep ln n).1 := by
  rcases ln with _ | m
  · rfl
  · simp only [listingStep]
    split
    · split <;> rfl
    · rfl

lemma priceStep_filter_self (llp lp : Option ℚ) :
    ((priceStep llp lp).1).filter Msg.isPriceChangeB = (priceStep llp lp).1 := by
  rcases llp with _ | ll
  · rfl
  · rcases lp with _ | l
    · rfl
    · simp only [priceStep]
      split
      · split <;> rfl
      · rfl

lemma detect_filter_listing (tp : ℚ) (nl : Bool) (atl : Option ℚ) (lso : Option LastState)
    (s : PriceSummary) :
    (detect tp nl atl lso s).msgs.filter Msg.isListingB =
      match lso, s.num_listings with
      | some ls, some n => (listingStep ls.num_listings n).1
      | _, _ => [] := by
  rw [detect_msgs, List.filter_append, List.filter_append, List.filter_append,
    targetStep_filter_eq_nil _ _ _ (fun _ _ => rfl),
    marketStep_filter_eq_nil _ _ _ (fun _ _ => rfl)]
  have h2 : (if nl then (newLowStep atl s.lowest_price s.computed_min_price).1
      else []).filter Msg.isListingB = [] := by
    cases nl
    · rfl
    · exact newLowStep_filter_eq_nil _ _ _ _ (fun _ _ => rfl)
  rw [h2]
  simp only [List.nil_append, List.append_nil]
  rcases lso with _ | ls
  · rfl
  · rcases hn : s.num_listings with _ | n
    · rfl
    · dsimp only [movementStep]
      rw [List.filter_append, listingStep_filter_self,
        priceStep_filter_eq_nil _ _ _ (fun _ _ => rfl) (fun _ _ => rfl),
        List.append_nil]

lemma detect_filter_priceChange (tp : ℚ) (nl : Bool) (atl : Option ℚ)
    (lso : Option LastState) (s : PriceSummary) :
    (detect tp nl atl lso s).msgs.filter Msg.isPriceChangeB =
      match lso, s.num_listings with
      | some ls, some _ => (priceStep ls.lowest_price s.lowest_price).1
      | _, _ => [] := by
  rw [detect_msgs, List.filter_append, List.filter_append, List.filter_append,
    targetStep_filter_eq_nil _ _ _ (fun _ _ => rfl),
    marketStep_filter_eq_nil _ _ _ (fun _ _ => rfl)]
  have h2 : (if nl then (newLowStep atl s.lowest_price s.computed_min_price).1
      else []).filter Msg.isPriceChangeB = [] := by
    cases nl
    · rfl
    · exact newLowStep_filter_eq_nil _ _ _ _ (fun _ _ => rfl)
  rw [h2]
  simp only [List.nil_append, List.append_nil]
  rcases lso with _ | ls
  · rfl
  · rcases hn : s.num_listings with _ | n
    · rfl
    · dsimp only [movementStep]
      rw [List.filter_append, priceStep_filter_self,
        listingStep_filter_eq_nil _ _ _ (fun _ _ => rfl) (fun _ _ => rfl),
        List.nil_append]

lemma detect_filter_market (tp : ℚ) (nl : Bool) (atl : Option ℚ)
    (lso : Option LastState) (s : PriceSummary) :
    (detect tp nl atl lso s).msgs.filter Msg.isMarketB =
      (marketStep (movementStep lso s.num_listings s.lowest_price).2
        s.all_prices).filter Msg.isMarketB := by
  rw [detect_msgs, List.filter_append, List.filter_append, List.filter_append,
    targetStep_filter_eq_nil _ _ _ (fun _ _ => rfl),
    movementStep_filter_eq_nil _ _ _ _ (fun _ _ => rfl) (fun _ _ => rfl)
      (fun _ _ => rfl) (fun _ _ => rfl)]
  have h2 : (if nl then (newLowStep atl s.lowest_price s.computed_min_price).1
      else []).filter Msg.isMarketB = [] := by
    cases nl
    · rfl
    · exact newLowStep_filter_eq_nil _ _ _ _ (fun _ _ => rfl)
  rw [h2]
  simp only [List.nil_append, List.append_nil]

lemma listingStep_snd_eq (ln : Option ℤ) (n : ℤ) :
    (listingStep ln n).2 = !((listingStep ln n).1).isEmpty := by
  rcases ln with _ | m
  · rfl
  · simp only [listingStep]
    split
    · split <;> rfl
    · rfl

lemma priceStep_snd_eq (llp lp : Option ℚ) :
    (priceStep llp lp).2 = !((priceStep llp lp).1).isEmpty := by
  rcases llp with _ | ll
  · rfl
  · rcases lp with _ | l
    · rfl
    · simp only [priceStep]
      split
      · split <;> rfl
      · rfl

lemma any_eq_not_isEmpty_filter (l : List Msg) (pr : Msg → Bool) :
    l.any pr = !(l.filter pr).isEmpty := by
  induction l with
  | nil => rfl
  | cons a t ih =>
    cases h : pr a <;> simp [List.filter_cons, h, ih]

lemma newLowEps_pos : 0 < newLowEps := by
  rw [newLowEps]
  norm_num

lemma newLowStep_twice (atl lp cm : Option ℚ) :
    (newLowStep (newLowStep atl lp cm).2 lp cm).1 = [] := by
  have hnot : ∀ e : ℚ, ¬ e < e - newLowEps := by
    intro e
    have := newLowEps_pos
    intro hcon
    linarith
  rcases he : effectiveLow lp cm with _ | e
  · simp [newLowStep, he]
  · rcases atl with _ | a
    · simp [newLowStep, he, hnot e]
    · by_cases hlt : e < a - newLowEps
      · simp [newLowStep, he, hlt, hnot e]
      · simp [newLowStep, he, hlt]

lemma marketStep_true_cons (x : ℚ) (xs : List ℚ) :
    marketStep true (x :: xs) =
      [Msg.market (if (x :: xs).length ≥ 5 then (x :: xs).take 5 else x :: xs)
        (((if (x :: xs).length ≥ 10 then (x :: xs).take 10 else x :: xs).insertionSort
            (· ≤ ·)).getD
          ((if (x :: xs).length ≥ 10 then (x :: xs).take 10 else x :: xs).length / 2) 0)] := by
  have hb : (if (x :: xs).length ≥ 10 then (x :: xs).take 10 else x :: xs).isEmpty
      = false := by
    split
    · simp [List.isEmpty_iff, List.take_eq_nil_iff]
    · simp
  simp only [marketStep, List.isEmpty_cons, Bool.not_false, Bool.and_true, if_true]
  rw [hb]
  rfl

/-! ## Claims about the parser -/

/-- C2, counterexample: the claim asserts the full-text fallback applies the
same currency rule as `_parse_money`, i.e. strips thousands-separator commas
first.  On a page whose full text is `$1,234` the code's fallback (a raw
`_MONEY_RE.search`, line 63 of `parse_event.py`) yields `1`, while the
comma-stripping rule yields `1234`. -/
theorem C2_counterexample :
    firstLabelMoney pageComma.lowestLabelTexts = none ∧
    (parse_prices_summary pageComma).lowest_price = some 1 ∧
    parseMoney pageComma.fullText.data = some 1234 ∧ (1 : ℚ) ≠ 1234 := by
  refine ⟨rfl, by decide, by decide, by norm_num⟩

/-- C2, amended: when no "lowest price" labeled region yields a parseable
amount, `parse_prices_summary` falls back to the first money-pattern match in
the raw full page text, without the comma stripping `_parse_money` performs. -/
theorem C2_fallback_raw_fulltext (p : Page)
    (h : firstLabelMoney p.lowestLabelTexts = none) :
    (parse_prices_summary p).lowest_price = moneySearch p.fullText.data := by
  simp [parse_prices_summary, h]

/-- C2 witness: the fallback theorem applied to a concrete label-less page. -/
theorem C2_fallback_raw_fulltext_witness :
    firstLabelMoney pageComma.lowestLabelTexts = none ∧
    (parse_prices_summary pageComma).lowest_price = moneySearch pageComma.fullText.data :=
  ⟨rfl, C2_fallback_raw_fulltext pageComma rfl⟩

/-- C3: for every page, `all_prices` is sorted ascending; when it is
non-empty, `num_listings` is its length and `computed_min_price` is its
minimum; when it is empty, `computed_min_price` and `num_listings` are both
null. -/
theorem C3_summary_invariants (p : Page) :
    List.Sorted (· ≤ ·) (parse_prices_summary p).all_prices ∧
    ((parse_prices_summary p).all_prices ≠ [] →
      (parse_prices_summary p).num_listings =
        some ((parse_prices_summary p).all_prices.length : ℤ) ∧
      ∃ m, (parse_prices_summary p).computed_min_price = some m ∧
        m ∈ (parse_prices_summary p).all_prices ∧
        ∀ x ∈ (parse_prices_summary p).all_prices, m ≤ x) ∧
    ((parse_prices_summary p).all_prices = [] →
      (parse_prices_summary p).computed_min_price = none ∧
      (parse_prices_summary p).num_listings = none) := by
  rcases h : collectPrices p.rows with _ | ⟨a, t⟩
  · refine ⟨?_, ?_, ?_⟩
    · simp [parse_prices_summary, h]
    · intro hne
      exact absurd (by simp [parse_prices_summary, h]) hne
    · intro _
      simp [parse_prices_summary, h, listMin]
  · have hperm : (parse_prices_summary p).all_prices.Perm (a :: t) := by
      have hp := parse_all_prices_perm p
      rwa [h] at hp
    refine ⟨?_, ?_, ?_⟩
    · simp only [parse_prices_summary, h]
      exact List.sorted_insertionSort _ _
    · intro _
      constructor
      · have hlen : (parse_prices_summary p).all_prices.length = (a :: t).length :=
          hperm.length_eq
        simp only [parse_prices_summary, h] at hlen ⊢
        rw [hlen]
      · refine ⟨t.foldl min a, ?_, ?_, ?_⟩
        · simp [parse_prices_summary, h, listMin]
        · exact hperm.mem_iff.mpr (foldl_min_mem t a)
        · intro x hx
          exact listMin_le (l := a :: t) rfl x (hperm.mem_iff.mp hx)
    · intro hemp
      exfalso
      have hlen := hperm.length_eq
      rw [hemp] at hlen
      simp at hlen

/-- C3 witness: the invariants instantiated on a page with three priced
"Buy" rows. -/
theorem C3_summary_invariants_witness :
    (parse_prices_summary pageA).all_prices ≠ [] ∧
    ((parse_prices_summary pageA).num_listings =
      some ((parse_prices_summary pageA).all_prices.length : ℤ) ∧
     ∃ m, (parse_prices_summary pageA).computed_min_price = some m ∧
       m ∈ (parse_prices_summary pageA).all_prices ∧
       ∀ x ∈ (parse_prices_summary pageA).all_prices, m ≤ x) :=
  ⟨by decide, (C3_summary_invariants pageA).2.1 (by decide)⟩

/-- C4: a page none of whose rows matches the "Buy" heuristic parses to
`num_listings = none` (not 0) and `all_prices = []`.  The embedding is a
total function, matching the contract that `parse` never raises and
represents absence as null fields. -/
theorem C4_degrades_without_buy_rows (p : Page)
    (h : ∀ r ∈ p.rows, rowHasBuy r = false) :
    (parse_prices_summary p).num_listings = none ∧
    (parse_prices_summary p).all_prices = [] := by
  have hf : p.rows.filter rowHasBuy = [] := by
    rw [List.filter_eq_nil_iff]
    intro r hr
    simp [h r hr]
  have hc : collectPrices p.rows = [] := by
    unfold collectPrices
    rw [hf]
    rfl
  constructor <;> simp [parse_prices_summary, hc]

/-- C4 witness: a concrete page with a priced row lacking the "Buy" token
(and a "Buyer" token that the word boundary rejects). -/
theorem C4_degrades_without_buy_rows_witness :
    (∀ r ∈ pageNoBuy.rows, rowHasBuy r = false) ∧
    (parse_prices_summary pageNoBuy).num_listings = none ∧
    (parse_prices_summary pageNoBuy).all_prices = [] :=
  ⟨by decide, C4_degrades_without_buy_rows pageNoBuy (by decide)⟩

/-- C10: every element of `all_prices` is strictly positive, and so is any
`computed_min_price`: a cell whose first money match parses to `0.0` is falsy
in `if price:` and is skipped in favour of later cells. -/
theorem C10_prices_strictly_positive (p : Page) :
    (∀ x ∈ (parse_prices_summary p).all_prices, 0 < x) ∧
    (∀ q, (parse_prices_summary p).computed_min_price = some q → 0 < q) := by
  have hperm := parse_all_prices_perm p
  constructor
  · intro x hx
    exact collectPrices_pos (hperm.mem_iff.mp hx)
  · intro q hq
    have hcm : (parse_prices_summary p).computed_min_price
        = listMin (collectPrices p.rows) := by
      simp [parse_prices_summary]
    rw [hcm] at hq
    exact collectPrices_pos (listMin_mem hq)

/-- C10 witness: on the page whose row is `["$0", "$5"]` the parsed price
list is `[5]` — the zero cell is skipped, the later cell supplies the
price — and the theorem yields its positivity. -/
theorem C10_prices_strictly_positive_witness :
    (5 : ℚ) ∈ (parse_prices_summary pageZero).all_prices ∧ 0 < (5 : ℚ) ∧
    (parse_prices_summary pageZero).all_prices = [5] :=
  ⟨by decide, (C10_prices_strictly_positive pageZero).1 5 (by decide), by decide⟩

/-! ## Claims about the change detector -/

/-- C1, counterexample: prior observation exists, both lowest prices are
non-null and differ by more than the threshold, yet because the current
`num_listings` is null the `if last_state and num_listings is not None`
guard (line 228 of `monitor.py`) skips price-change detection and no message
at all is emitted — contradicting "regardless of whether the current
num_listings is null". -/
theorem C1_counterexample :
    (detect 0 false none
      (some { lowest_price := some 100, num_listings := some 5, all_prices := [] })
      { lowest_price := some 200, median_sale := none, computed_min_price := none,
        num_listings := none, all_prices := [] }).msgs = [] ∧
    |(200 : ℚ) - 100| > priceChangeEps := by
  constructor
  · decide
  · rw [priceChangeEps]
    norm_num

/-- C1, amended: when a prior observation exists and both lowest prices are
non-null, exactly one directional price-change message is emitted iff the
current `num_listings` is also non-null and `|new - old| > 0.01`; when the
difference is at most `0.01` (or the listing count is null) none is
emitted. -/
theorem C1_price_change (tp : ℚ) (nl : Bool) (atl : Option ℚ)
    (ls : LastState) (s : PriceSummary) (oldP newP : ℚ)
    (h1 : ls.lowest_price = some oldP) (h2 : s.lowest_price = some newP) :
    (detect tp nl atl (some ls) s).msgs.filter Msg.isPriceChangeB =
      if s.num_listings ≠ none ∧ |newP - oldP| > priceChangeEps then
        (if newP > oldP then [Msg.priceUp oldP newP] else [Msg.priceDown oldP newP])
      else [] := by
  rw [detect_filter_priceChange]
  rcases hn : s.num_listings with _ | n
  · simp
  · dsimp only
    rw [h1, h2]
    dsimp only [priceStep]
    by_cases habs : |newP - oldP| > priceChangeEps
    · have hc : (some n : Option ℤ) ≠ none ∧ |newP - oldP| > priceChangeEps :=
        ⟨by simp, habs⟩
      rw [if_pos habs, if_pos hc]
    · have hc : ¬((some n : Option ℤ) ≠ none ∧ |newP - oldP| > priceChangeEps) :=
        fun hcon => habs hcon.2
      rw [if_neg habs, if_neg hc]

/-- C1 witness: prior lowest 100, current lowest 120 with a non-null listing
count — the amended theorem instantiates and the message is the upward one. -/
theorem C1_price_change_witness :
    (detect 0 false none
      (some { lowest_price := some 100, num_listings := some 5, all_prices := [] })
      { lowest_price := some 120, median_sale := none, computed_min_price := none,
        num_listings := some 4, all_prices := [] }).msgs.filter Msg.isPriceChangeB
      = [Msg.priceUp 100 120] := by
  rw [C1_price_change 0 false none
    { lowest_price := some 100, num_listings := some 5, all_prices := [] }
    { lowest_price := some 120, median_sale := none, computed_min_price := none,
      num_listings := some 4, all_prices := [] } 100 120 rfl rfl]
  rw [if_pos ⟨by simp, by rw [priceChangeEps]; norm_num⟩, if_pos (by norm_num)]

/-- C5: running the detection pass twice on the same `PriceSummary` never
fires the new-low rule the second time: after the first pass updates
`all_time_low`, the second pass's message list contains no new-low message. -/
theorem C5_newlow_idempotent (tp : ℚ) (nl : Bool) (atl : Option ℚ)
    (lso : Option LastState) (s : PriceSummary) :
    ((detect tp nl (detect tp nl atl lso s).all_time_low
        (some (detect tp nl atl lso s).last_state) s).msgs).filter Msg.isNewLowB
      = [] := by
  rw [detect_msgs, List.filter_append, List.filter_append, List.filter_append,
    targetStep_filter_eq_nil _ _ _ (fun _ _ => rfl),
    movementStep_filter_eq_nil _ _ _ _ (fun _ _ => rfl) (fun _ _ => rfl)
      (fun _ _ => rfl) (fun _ _ => rfl),
    marketStep_filter_eq_nil _ _ _ (fun _ _ => rfl)]
  simp only [List.append_nil, List.nil_append]
  cases nl with
  | false => rfl
  | true =>
    rw [detect_all_time_low]
    simp only [if_true]
    rw [newLowStep_twice]
    rfl

/-- C6: a target-hit message is emitted iff `target_price > 0`, the current
`lowest_price` is non-null, and it is at most `target_price`; with
`target_price = 0` the condition is never met. -/
theorem C6_target_hit_iff (tp : ℚ) (nl : Bool) (atl : Option ℚ)
    (lso : Option LastState) (s : PriceSummary) :
    (detect tp nl atl lso s).msgs.filter Msg.isTargetHitB =
      match s.lowest_price with
      | some l => if tp > 0 ∧ l ≤ tp then [Msg.targetHit l tp] else []
      | none => [] := by
  rw [detect_msgs, List.filter_append, List.filter_append, List.filter_append,
    marketStep_filter_eq_nil _ _ _ (fun _ _ => rfl),
    movementStep_filter_eq_nil _ _ _ _ (fun _ _ => rfl) (fun _ _ => rfl)
      (fun _ _ => rfl) (fun _ _ => rfl)]
  have h2 : (if nl then (newLowStep atl s.lowest_price s.computed_min_price).1
      else []).filter Msg.isTargetHitB = [] := by
    cases nl
    · rfl
    · exact newLowStep_filter_eq_nil _ _ _ _ (fun _ _ => rfl)
  rw [h2]
  simp only [List.append_nil]
  rcases hl : s.lowest_price with _ | l
  · rfl
  · dsimp only [targetStep]
    by_cases hc : tp > 0 ∧ l ≤ tp
    · simp [hc, Msg.isTargetHitB]
    · simp [hc]

/-- C7: with a prior observation and both listing counts non-null, a higher
count emits one "posted" message with the delta and new total, a lower count
one "sold" message with the absolute delta and new total; equal counts or a
null count emit none. -/
theorem C7_listing_change (tp : ℚ) (nl : Bool) (atl : Option ℚ)
    (lso : Option LastState) (s : PriceSummary) :
    (detect tp nl atl lso s).msgs.filter Msg.isListingB =
      match lso, s.num_listings with
      | some ls, some n =>
        (match ls.num_listings with
         | some m =>
           if m < n then [Msg.posted (n - m) n]
           else if n < m then [Msg.sold (m - n) n]
           else []
         | none => [])
      | _, _ => [] := by
  rw [detect_filter_listing]
  rcases lso with _ | ls
  · rfl
  · rcases hn : s.num_listings with _ | n
    · rfl
    · dsimp only
      rcases hm : ls.num_listings with _ | m
      · rfl
      · by_cases hne : n = m
        · subst hne
          simp [listingStep, lt_irrefl]
        · by_cases hlt : m < n
          · have hpos : n - m > 0 := by omega
            simp [listingStep, hne, hlt, hpos]
          · have hgt : n < m := by omega
            have hnpos : ¬ n - m > 0 := by omega
            simp [listingStep, hne, hlt, hgt, hnpos]

/-- C8: a market-snapshot message is emitted iff a listing-change or
price-change message was emitted this cycle and the current price list is
non-empty; it carries the lowest 5 prices (or all if fewer) and the element
at index `count / 2` of the sorted bottom 10.  The second conjunct checks
the even-count convention: prices `[5, 6, 7, 8]` report median `7`. -/
theorem C8_market_snapshot (tp : ℚ) (nl : Bool) (atl : Option ℚ)
    (lso : Option LastState) (s : PriceSummary) :
    ((detect tp nl atl lso s).msgs.filter Msg.isMarketB =
      if ((detect tp nl atl lso s).msgs.any Msg.isListingB
            || (detect tp nl atl lso s).msgs.any Msg.isPriceChangeB)
          && !s.all_prices.isEmpty then
        [Msg.market
          (if s.all_prices.length ≥ 5 then s.all_prices.take 5 else s.all_prices)
          (((if s.all_prices.length ≥ 10 then s.all_prices.take 10
              else s.all_prices).insertionSort (· ≤ ·)).getD
            ((if s.all_prices.length ≥ 10 then s.all_prices.take 10
              else s.all_prices).length / 2) 0)]
      else []) ∧
    (detect 0 false none
      (some { lowest_price := none, num_listings := some 5, all_prices := [] })
      { lowest_price := none, median_sale := none, computed_min_price := none,
        num_listings := some 4, all_prices := [5, 6, 7, 8] }).msgs.filter Msg.isMarketB
      = [Msg.market [5, 6, 7, 8] 7] := by
  constructor
  · rw [detect_filter_market, any_eq_not_isEmpty_filter, any_eq_not_isEmpty_filter,
      detect_filter_listing, detect_filter_priceChange]
    rcases lso with _ | ls
    · simp [movementStep, marketStep]
    · rcases hn : s.num_listings with _ | n
      · simp [movementStep, marketStep]
      · dsimp only [movementStep]
        rw [← listingStep_snd_eq, ← priceStep_snd_eq]
        cases hmv : ((listingStep ls.num_listings n).2
            || (priceStep ls.lowest_price s.lowest_price).2)
        · simp [marketStep]
        · rcases hap : s.all_prices with _ | ⟨x, xs⟩
          · simp [marketStep]
          · rw [marketStep_true_cons]
            simp [Msg.isMarketB]
  · decide

/-! ## Claim about the history-store reader -/

/-- C9: `read_last_lowest` returns the minimum of the values of all truthy
`lowest_price` fields, null when no such field exists or the store is
absent/empty/unreadable, and null whenever any field is corrupt (the caught
`float()` failure), never raising. -/
theorem C9_min_lowest_ever (rs : List LowField)
    (hc : ∀ f ∈ rs, f.isCorrupt = false) :
    read_last_lowest Store.absent = none ∧
    read_last_lowest Store.unreadable = none ∧
    read_last_lowest (Store.records []) = none ∧
    (∀ rs', rs'.any LowField.isCorrupt = true →
      read_last_lowest (Store.records rs') = none) ∧
    (rs.filterMap LowField.getVal = [] →
      read_last_lowest (Store.records rs) = none) ∧
    (∀ m, read_last_lowest (Store.records rs) = some m →
      m ∈ rs.filterMap LowField.getVal ∧
      ∀ x ∈ rs.filterMap LowField.getVal, m ≤ x) ∧
    (rs.filterMap LowField.getVal ≠ [] →
      ∃ m, read_last_lowest (Store.records rs) = some m) := by
  have hna : rs.any LowField.isCorrupt = false := by
    rw [List.any_eq_false]
    intro f hf
    simp [hc f hf]
  have hrl : read_last_lowest (Store.records rs)
      = listMin (rs.filterMap LowField.getVal) := by
    simp [read_last_lowest, hna]
  refine ⟨rfl, rfl, rfl, ?_, ?_, ?_, ?_⟩
  · intro rs' h
    simp [read_last_lowest, h]
  · intro he
    rw [hrl, he]
    rfl
  · intro m hm
    rw [hrl] at hm
    exact ⟨listMin_mem hm, listMin_le hm⟩
  · intro hne
    rw [hrl]
    rcases hv : rs.filterMap LowField.getVal with _ | ⟨a, t⟩
    · exact absurd hv hne
    · exact ⟨t.foldl min a, rfl⟩

/-- C9 witness: a store of three records (values 12, an empty field, 10)
yields 10, the minimum over the present values; an unreadable store yields
null. -/
theorem C9_min_lowest_ever_witness :
    read_last_lowest
      (Store.records [LowField.val 12, LowField.missing, LowField.val 10]) = some 10 ∧
    ((10 : ℚ) ∈ [LowField.val 12, LowField.missing,
        LowField.val 10].filterMap LowField.getVal ∧
      ∀ x ∈ [LowField.val 12, LowField.missing,
        LowField.val 10].filterMap LowField.getVal, (10 : ℚ) ≤ x) ∧
    read_last_lowest Store.unreadable = none := by
  have h := C9_min_lowest_ever
    [LowField.val 12, LowField.missing, LowField.val 10] (by decide)
  exact ⟨by decide, h.2.2.2.2.2.1 10 (by decide), h.2.1⟩

end TixMonitor
